import Mathlib

/-!
Shallow embedding of the viewport/editing core of the Kakoune window module
(`src/window.cc`): coordinates, selections, the spec-modelled buffer with its
undo-group discipline, display atoms, the window operations and the
incremental-insertion session, together with theorems settling the spec's
claims about them.

External collaborators (Buffer, BufferIterator, DisplayAtom internals) are not
part of `src/window.cc`; definitions for them are modelled from the spec and
marked as such in their doc comments.  Everything else is translated directly
from `src/window.cc`.
-/

set_option maxRecDepth 4096

namespace Kakoune

/-- Line/column coordinate with componentwise addition and lexicographic
compare.  Models both `BufferCoord` and `DisplayCoord` (the spec gives them
the same shape: signed line and column). -/
structure Coord where
  line : Int
  column : Int
deriving DecidableEq, Repr

instance : Add Coord := ⟨fun a b => ⟨a.line + b.line, a.column + b.column⟩⟩

instance : LT Coord :=
  ⟨fun a b => a.line < b.line ∨ (a.line = b.line ∧ a.column < b.column)⟩

instance : LE Coord :=
  ⟨fun a b => a.line < b.line ∨ (a.line = b.line ∧ a.column ≤ b.column)⟩

instance (a b : Coord) : Decidable (a < b) :=
  decidable_of_iff (a.line < b.line ∨ (a.line = b.line ∧ a.column < b.column)) Iff.rfl

instance (a b : Coord) : Decidable (a ≤ b) :=
  decidable_of_iff (a.line < b.line ∨ (a.line = b.line ∧ a.column ≤ b.column)) Iff.rfl

/-- Buffer text is a list of characters; a `BufferIterator` is a character
offset into it (a natural number, clamped to `[0, length]` by the motion
primitives). -/
abbrev Str := List Char

/-- Modelled from the spec: `Buffer::insert` places a string at the given
iterator position; text at and after the position shifts right. -/
def insertAt (c : Str) (p : Nat) (s : Str) : Str :=
  c.take p ++ s ++ c.drop p

/-- Modelled from the spec: `Buffer::erase` removes the half-open range
`[p, q)` from the text. -/
def eraseRange (c : Str) (p q : Nat) : Str :=
  c.take p ++ c.drop q

/-- Translated from `measure_string` in `src/window.cc` (lines 93-109): a
newline advances the line and resets the column, any other character advances
the column. -/
def measure_string (s : Str) : Coord :=
  s.foldl (fun r ch => if ch = '\n' then ⟨r.line + 1, 0⟩ else ⟨r.line, r.column + 1⟩) ⟨0, 0⟩

/-- Modelled from the spec: `Buffer::line_and_column_at` maps an offset to its
buffer coordinate (number of newlines before it, characters since the last
newline). -/
def lineColAt (c : Str) (p : Nat) : Coord :=
  measure_string (c.take p)

/-- Modelled from the spec: offsets at which each buffer line starts
(offset 0, plus the offset just after every newline). -/
def lineStarts (c : Str) : List Nat :=
  0 :: ((List.range c.length).filter (fun i => decide (c.get? i = some '\n'))).map (fun i => i + 1)

/-- Modelled from the spec: `Buffer::iterator_at` resolves a buffer coordinate
to an offset, clamping negative coordinates to the buffer start and
out-of-range coordinates to the buffer end. -/
def bufferIteratorAt (c : Str) (co : Coord) : Nat :=
  min ((lineStarts c).getD co.line.toNat c.length + co.column.toNat) c.length

/-- Number of steps from the head of a suffix to its first newline (the
whole suffix when it has none). -/
def distToNl : Str → Nat
  | [] => 0
  | ch :: rest => if ch = '\n' then 0 else distToNl rest + 1

/-- The forward scan of the `IncrementalInserter` constructor
(`src/window.cc` lines 401-403): advance while not at end-of-buffer and the
current character is not a newline, phrased on the remaining suffix. -/
def scanForward (c : Str) (p : Nat) : Nat :=
  p + distToNl (c.drop p)

/-- The backward scan of the `IncrementalInserter` constructor
(`src/window.cc` lines 413-415): retreat while not at beginning-of-buffer and
the current character is not a newline. -/
def scanBackward (c : Str) : Nat → Nat
  | 0 => 0
  | p + 1 => if c.get? (p + 1) = some '\n' then p + 1 else scanBackward c p

/-- A selection: anchored range of buffer iterators (`first` is the anchor,
`last` the cursor) plus captured strings, per `Selection` in `window.hh` as
used by `src/window.cc`. -/
structure Selection where
  first : Nat
  last : Nat
  captures : List Str
deriving DecidableEq, Repr

/-- `Selection::begin` (`src/window.cc` lines 12-15). -/
def Selection.begin (s : Selection) : Nat := min s.first s.last

/-- `Selection::end` (`src/window.cc` lines 17-20). -/
def Selection.end_ (s : Selection) : Nat := max s.first s.last + 1

/-- `Selection::merge_with` (`src/window.cc` lines 22-29). -/
def Selection.merge_with (s other : Selection) : Selection :=
  { first := if s.first ≤ s.last then min s.first other.first else max s.first other.first
    last := other.last
    captures := s.captures }

/-- `Selection::capture` (`src/window.cc` lines 31-36): the i-th capture when
in range, the empty string otherwise. -/
def Selection.capture (s : Selection) (index : Nat) : Str :=
  if h : index < s.captures.length then s.captures.get ⟨index, h⟩ else []

/-- Events recorded against the modelled buffer, used to state the
undo-group discipline (`begin_undo_group`/`end_undo_group` bracketing). -/
inductive UndoEvent where
  | beginGroup : UndoEvent
  | endGroup : UndoEvent
  | ins : Nat → Str → UndoEvent
  | del : Nat → Nat → UndoEvent
deriving DecidableEq, Repr

/-- True of the events emitted by content mutations (insertions and
erasures), false of the group brackets. -/
def isMut : UndoEvent → Bool
  | UndoEvent.ins _ _ => true
  | UndoEvent.del _ _ => true
  | _ => false

/-- Modelled from the spec: the external `Buffer` with its content, its
undo/redo stacks of content snapshots, the snapshot pending inside an open
undo group, and the trace of interface events (used to state bracketing). -/
structure Buffer where
  content : Str
  undoStack : List Str
  redoStack : List Str
  pending : Option Str
  trace : List UndoEvent

/-- Modelled from the spec: `Buffer::begin_undo_group` opens a group,
snapshotting the current content. -/
def Buffer.begin_undo_group (b : Buffer) : Buffer :=
  { b with pending := some b.content, trace := b.trace ++ [UndoEvent.beginGroup] }

/-- Modelled from the spec: `Buffer::end_undo_group` closes the open group,
committing its snapshot as one undoable step. -/
def Buffer.end_undo_group (b : Buffer) : Buffer :=
  match b.pending with
  | some snap =>
      { b with pending := none, undoStack := snap :: b.undoStack,
               trace := b.trace ++ [UndoEvent.endGroup] }
  | none => { b with trace := b.trace ++ [UndoEvent.endGroup] }

/-- Modelled from the spec: `Buffer::undo` reverts one undoable step,
returning whether work was done. -/
def Buffer.undo (b : Buffer) : Bool × Buffer :=
  match b.undoStack with
  | [] => (false, b)
  | s :: rest =>
      (true, { b with content := s, undoStack := rest, redoStack := b.content :: b.redoStack })

/-- Modelled from the spec: `Buffer::redo` re-applies one undone step. -/
def Buffer.redo (b : Buffer) : Bool × Buffer :=
  match b.redoStack with
  | [] => (false, b)
  | s :: rest =>
      (true, { b with content := s, redoStack := rest, undoStack := b.content :: b.undoStack })

/-- Modelled from the spec: `Buffer::insert` at an iterator position. -/
def Buffer.insert (b : Buffer) (p : Nat) (s : Str) : Buffer :=
  { b with content := insertAt b.content p s, trace := b.trace ++ [UndoEvent.ins p s] }

/-- Modelled from the spec: `Buffer::erase` of the range `[p, q)`. -/
def Buffer.erase (b : Buffer) (p q : Nat) : Buffer :=
  { b with content := eraseRange b.content p q, trace := b.trace ++ [UndoEvent.del p q] }

/-- Modelled from the spec: a `DisplayAtom` is a contiguous rendered run with
the display coordinate of its first cell and the buffer range it renders. -/
structure DisplayAtom where
  coord : Coord
  begin_ : Nat
  end_ : Nat
deriving DecidableEq, Repr

/-- Modelled from the spec: `DisplayAtom::line_and_column_at` maps an
iterator strictly inside the atom to its display coordinate, measuring the
text between the atom's start and the iterator. -/
def DisplayAtom.line_and_column_at (c : Str) (a : DisplayAtom) (it : Nat) : Coord :=
  let m := measure_string ((c.drop a.begin_).take (it - a.begin_))
  if m.line = 0 then ⟨a.coord.line, a.coord.column + m.column⟩
  else ⟨a.coord.line + m.line, m.column⟩

/-- Modelled from the spec: walk of `DisplayAtom::iterator_at`, advancing an
iterator and its display coordinate in step until the target coordinate or
the atom's end is reached (the fuel is the atom's length). -/
def atomWalk (c : Str) (dc : Coord) : Nat → Nat → Coord → Nat
  | 0, p, _ => p
  | fuel + 1, p, cur =>
      if cur < dc then
        match c.get? p with
        | some ch =>
            atomWalk c dc fuel (p + 1)
              (if ch = '\n' then ⟨cur.line + 1, 0⟩ else ⟨cur.line, cur.column + 1⟩)
        | none => p
      else p

/-- Modelled from the spec: `DisplayAtom::iterator_at` maps a display
coordinate inside the atom to a buffer iterator. -/
def DisplayAtom.iterator_at (c : Str) (a : DisplayAtom) (dc : Coord) : Nat :=
  atomWalk c dc (a.end_ - a.begin_) a.begin_ a.coord

/-- A display filter: a transform over the display buffer
(`Window::FilterAndId` pairs one with its string id). -/
abbrev FilterFn := List DisplayAtom → List DisplayAtom

/-- The recoverable error surface of the window (`filter_id_not_unique` in
`src/window.cc` line 347). -/
inductive WindowError where
  | filter_id_not_unique : String → WindowError
deriving DecidableEq, Repr

/-- The window state hosted over the buffer (`window.hh` as used by
`src/window.cc`): scroll position, viewport dimensions, the non-empty
selection list, the derived display buffer, the ordered filter list, and
whether an incremental-insertion session is active. -/
structure Window where
  buffer : Buffer
  position : Coord
  dimensions : Coord
  selections : List Selection
  display_buffer : List DisplayAtom
  filters : List (String × FilterFn)
  current_inserter : Bool

/-- `Window::cursor_iterator` (`src/window.cc` lines 73-77): the primary
selection is the last element of the selection list. -/
def Window.cursor_iterator (w : Window) : Nat :=
  (w.selections.getLastD ⟨0, 0, []⟩).last

/-- The off-screen branch of `Window::line_and_column_at` (`src/window.cc`
lines 197-199): buffer coordinate minus scroll position. -/
def Window.offscreenCoord (w : Window) (it : Nat) : Coord :=
  let coord := lineColAt w.buffer.content it
  ⟨coord.line - w.position.line, coord.column - w.position.column⟩

/-- `Window::line_and_column_at` (`src/window.cc` lines 180-200): `(0,0)` on
an empty display buffer; delegation to the first atom whose end exceeds the
iterator when the iterator is inside the displayed range; otherwise the raw
buffer coordinate minus the scroll position. -/
def Window.line_and_column_at (w : Window) (it : Nat) : Coord :=
  match w.display_buffer with
  | [] => ⟨0, 0⟩
  | a0 :: rest =>
      if a0.begin_ ≤ it ∧ it < ((a0 :: rest).getLastD a0).end_ then
        match (a0 :: rest).find? (fun a => decide (it < a.end_)) with
        | some a => DisplayAtom.line_and_column_at w.buffer.content a it
        | none => Window.offscreenCoord w it
      else Window.offscreenCoord w it

/-- The atom-walk of `Window::iterator_at` (`src/window.cc` lines 167-174):
walk the atoms keeping the previous one; at the first atom whose coordinate
strictly exceeds the window position, delegate to the previous atom. -/
def findDelegate (wp : Coord) : DisplayAtom → List DisplayAtom → Option DisplayAtom
  | _, [] => none
  | prev, a :: rest => if wp < a.coord then some prev else findDelegate wp a rest

/-- `Window::iterator_at` (`src/window.cc` lines 160-178): buffer begin on an
empty display buffer; for non-negative window positions, delegation to the
atom preceding the first atom whose coordinate strictly exceeds the position;
otherwise raw buffer arithmetic on `position + window_pos`.  (A first atom at
a coordinate above a non-negative window position cannot occur when the
display-buffer invariant `front.coord = (0,0)` holds; the model falls back to
the raw arithmetic on that unreachable branch.) -/
def Window.iterator_at (w : Window) (wp : Coord) : Nat :=
  match w.display_buffer with
  | [] => 0
  | a0 :: rest =>
      if (⟨0, 0⟩ : Coord) ≤ wp then
        if wp < a0.coord then bufferIteratorAt w.buffer.content (w.position + wp)
        else
          match findDelegate wp a0 rest with
          | some a => DisplayAtom.iterator_at w.buffer.content a wp
          | none => bufferIteratorAt w.buffer.content (w.position + wp)
      else bufferIteratorAt w.buffer.content (w.position + wp)

/-- `Window::scroll_to_keep_cursor_visible_ifn` (`src/window.cc` lines
304-326): map the primary cursor through the current display mapping and
pull the scroll position after it, per axis. -/
def Window.scroll_to_keep_cursor_visible_ifn (w : Window) : Window :=
  let cursor := Window.line_and_column_at w (Window.cursor_iterator w)
  let pl :=
    if cursor.line < 0 then max (w.position.line + cursor.line) 0
    else if w.dimensions.line ≤ cursor.line then
      w.position.line + (cursor.line - (w.dimensions.line - 1))
    else w.position.line
  let pc :=
    if cursor.column < 0 then max (w.position.column + cursor.column) 0
    else if w.dimensions.column ≤ cursor.column then
      w.position.column + (cursor.column - (w.dimensions.column - 1))
    else w.position.column
  { w with position := ⟨pl, pc⟩ }

/-- The loop of `Window::erase_noundo` (`src/window.cc` lines 85-91): erase
each selection's range, in stored order, on the mutating buffer. -/
def eraseAll : Buffer → List Selection → Buffer
  | b, [] => b
  | b, sel :: rest => eraseAll (Buffer.erase b (Selection.begin sel) (Selection.end_ sel)) rest

/-- The loop of `Window::insert_noundo` (`src/window.cc` lines 122-127):
insert the string at each selection's begin, in stored order. -/
def insertAll (s : Str) : Buffer → List Selection → Buffer
  | b, [] => b
  | b, sel :: rest => insertAll s (Buffer.insert b (Selection.begin sel) s) rest

/-- The loop of `Window::append_noundo` (`src/window.cc` lines 135-140):
insert the string at each selection's end, in stored order. -/
def appendAll (s : Str) : Buffer → List Selection → Buffer
  | b, [] => b
  | b, sel :: rest => appendAll s (Buffer.insert b (Selection.end_ sel) s) rest

/-- `Window::erase_noundo` (`src/window.cc` lines 85-91). -/
def Window.erase_noundo (w : Window) : Window :=
  Window.scroll_to_keep_cursor_visible_ifn { w with buffer := eraseAll w.buffer w.selections }

/-- `Window::insert_noundo` (`src/window.cc` lines 122-127). -/
def Window.insert_noundo (w : Window) (s : Str) : Window :=
  Window.scroll_to_keep_cursor_visible_ifn { w with buffer := insertAll s w.buffer w.selections }

/-- `Window::append_noundo` (`src/window.cc` lines 135-140). -/
def Window.append_noundo (w : Window) (s : Str) : Window :=
  Window.scroll_to_keep_cursor_visible_ifn { w with buffer := appendAll s w.buffer w.selections }

/-- `Window::erase` (`src/window.cc` lines 79-83): the `_noundo` body inside
a scoped undo group. -/
def Window.erase (w : Window) : Window :=
  let w1 := { w with buffer := Buffer.begin_undo_group w.buffer }
  let w2 := Window.erase_noundo w1
  { w2 with buffer := Buffer.end_undo_group w2.buffer }

/-- `Window::insert` (`src/window.cc` lines 116-120). -/
def Window.insert (w : Window) (s : Str) : Window :=
  let w1 := { w with buffer := Buffer.begin_undo_group w.buffer }
  let w2 := Window.insert_noundo w1 s
  { w2 with buffer := Buffer.end_undo_group w2.buffer }

/-- `Window::append` (`src/window.cc` lines 129-133). -/
def Window.append (w : Window) (s : Str) : Window :=
  let w1 := { w with buffer := Buffer.begin_undo_group w.buffer }
  let w2 := Window.append_noundo w1 s
  { w2 with buffer := Buffer.end_undo_group w2.buffer }

/-- `Window::replace` (`src/window.cc` lines 142-147): erase then insert
inside one scoped undo group. -/
def Window.replace (w : Window) (s : Str) : Window :=
  let w1 := { w with buffer := Buffer.begin_undo_group w.buffer }
  let w2 := Window.insert_noundo (Window.erase_noundo w1) s
  { w2 with buffer := Buffer.end_undo_group w2.buffer }

/-- `Window::undo` (`src/window.cc` lines 150-153). -/
def Window.undo (w : Window) : Bool × Window :=
  let r := Buffer.undo w.buffer
  (r.1, { w with buffer := r.2 })

/-- `Window::redo` (`src/window.cc` lines 155-158). -/
def Window.redo (w : Window) : Bool × Window :=
  let r := Buffer.redo w.buffer
  (r.1, { w with buffer := r.2 })

/-- `Window::clear_selections` (`src/window.cc` lines 202-209): collapse to a
single caret at the primary cursor. -/
def Window.clear_selections (w : Window) : Window :=
  let l := (w.selections.getLastD ⟨0, 0, []⟩).last
  { w with selections := [⟨l, l, []⟩] }

/-- `Window::select` (`src/window.cc` lines 211-229): replace the selections
with the selector's result on the primary cursor, or merge the selector's
result into each selection; then scroll. -/
def Window.select (w : Window) (selector : Nat → Selection) (app : Bool) : Window :=
  let w' :=
    if app then
      { w with selections := w.selections.map (fun sel => Selection.merge_with sel (selector sel.last)) }
    else
      { w with selections := [selector (w.selections.getLastD ⟨0, 0, []⟩).last] }
  Window.scroll_to_keep_cursor_visible_ifn w'

/-- `Window::multi_select` (`src/window.cc` lines 231-244): the concatenation
of the selector's output over all current selections becomes the new
selection list; then scroll. -/
def Window.multi_select (w : Window) (selector : Selection → List Selection) : Window :=
  Window.scroll_to_keep_cursor_visible_ifn
    { w with selections := (w.selections.map selector).flatten }

/-- `Window::move_cursor_to` (`src/window.cc` lines 272-278). -/
def Window.move_cursor_to (w : Window) (it : Nat) : Window :=
  Window.scroll_to_keep_cursor_visible_ifn { w with selections := [⟨it, it, []⟩] }

/-- `Window::move_cursor` (`src/window.cc` lines 254-270). -/
def Window.move_cursor (w : Window) (offset : Coord) (app : Bool) : Window :=
  if app then
    Window.scroll_to_keep_cursor_visible_ifn
      { w with selections := w.selections.map (fun sel =>
          let pos := lineColAt w.buffer.content sel.last
          ⟨sel.first, bufferIteratorAt w.buffer.content (pos + offset), []⟩) }
  else
    let pos := lineColAt w.buffer.content (Window.cursor_iterator w)
    Window.move_cursor_to w (bufferIteratorAt w.buffer.content (pos + offset))

/-- `Window::set_dimensions` (`src/window.cc` lines 299-302). -/
def Window.set_dimensions (w : Window) (d : Coord) : Window :=
  { w with dimensions := d }

/-- `Window::update_display_buffer` (`src/window.cc` lines 280-297): rebuild
from the visible rectangle, then apply each filter in order. -/
def Window.update_display_buffer (w : Window) : Window :=
  let b := bufferIteratorAt w.buffer.content w.position
  let e := bufferIteratorAt w.buffer.content
      (w.position + ⟨w.dimensions.line, w.dimensions.column⟩) + 1
  if b = e then { w with display_buffer := [] }
  else
    { w with display_buffer :=
        w.filters.foldl (fun db f => f.2 db) [⟨⟨0, 0⟩, b, e⟩] }

/-- The duplicate-id check of `Window::add_filter` (`src/window.cc` lines
344-348): the first filter with the given id yields the error. -/
def addFilterAux (id : String) : List (String × FilterFn) → Option WindowError
  | [] => none
  | p :: rest =>
      if p.1 = id then some (WindowError.filter_id_not_unique id) else addFilterAux id rest

/-- `Window::add_filter` (`src/window.cc` lines 342-350): raise
`filter_id_not_unique` on a duplicate id, otherwise push the pair at the end
of the filter list. -/
def Window.add_filter (w : Window) (f : String × FilterFn) : Except WindowError Window :=
  match addFilterAux f.1 w.filters with
  | some e => Except.error e
  | none => Except.ok { w with filters := w.filters ++ [f] }

/-- The loop of `Window::remove_filter` (`src/window.cc` lines 352-362):
erase the first filter with the given id; no-op when absent. -/
def removeFilterAux (id : String) : List (String × FilterFn) → List (String × FilterFn)
  | [] => []
  | p :: rest => if p.1 = id then rest else p :: removeFilterAux id rest

/-- `Window::remove_filter` (`src/window.cc` lines 352-362). -/
def Window.remove_filter (w : Window) (id : String) : Window :=
  { w with filters := removeFilterAux id w.filters }

/-- The insertion modes of `IncrementalInserter` (`window.hh` as used by
`src/window.cc` lines 387-420). -/
inductive Mode where
  | Insert
  | Append
  | Change
  | OpenLineBelow
  | AppendAtLineEnd
  | OpenLineAbove
  | InsertAtLineBegin
deriving DecidableEq, Repr

/-- The per-selection body of the `IncrementalInserter` constructor loop
(`src/window.cc` lines 390-422): derive the mode-dependent position
(mutating the buffer for the open-line modes), then reshape the selection to
a caret there, keeping its captures.  A `++` on the buffer iterator
saturates at end-of-buffer (modelled from the spec, which leaves past-end
motion undefined). -/
def inserter_step (mode : Mode) (b : Buffer) (sel : Selection) : Buffer × Selection :=
  match mode with
  | Mode.Insert => (b, ⟨Selection.begin sel, Selection.begin sel, sel.captures⟩)
  | Mode.Append => (b, ⟨Selection.end_ sel, Selection.end_ sel, sel.captures⟩)
  | Mode.Change => (b, ⟨Selection.begin sel, Selection.begin sel, sel.captures⟩)
  | Mode.OpenLineBelow =>
      let p0 := scanForward b.content (Selection.end_ sel - 1)
      let p := min (p0 + 1) b.content.length
      (Buffer.insert b p ['\n'], ⟨p, p, sel.captures⟩)
  | Mode.AppendAtLineEnd =>
      let p := scanForward b.content (Selection.end_ sel - 1)
      (b, ⟨p, p, sel.captures⟩)
  | Mode.OpenLineAbove =>
      let p := scanBackward b.content (Selection.begin sel)
      (Buffer.insert b p ['\n'], ⟨p + 1, p + 1, sel.captures⟩)
  | Mode.InsertAtLineBegin =>
      let p := scanBackward b.content (Selection.begin sel)
      (b, ⟨p + 1, p + 1, sel.captures⟩)

/-- The `IncrementalInserter` constructor loop over the selection list,
threading the buffer through the per-selection steps. -/
def reshape (mode : Mode) : Buffer → List Selection → Buffer × List Selection
  | b, [] => (b, [])
  | b, sel :: rest =>
      let r := inserter_step mode b sel
      let r' := reshape mode r.1 rest
      (r'.1, r.2 :: r'.2)

namespace IncrementalInserter

/-- The `IncrementalInserter` constructor (`src/window.cc` lines 378-423):
register the session, open an undo group, erase first in `Change` mode, then
reshape every selection to its mode-dependent caret. -/
def ctor (w : Window) (mode : Mode) : Window :=
  let w1 : Window := { w with current_inserter := true,
                              buffer := Buffer.begin_undo_group w.buffer }
  let w2 : Window := if mode = Mode.Change then Window.erase_noundo w1 else w1
  let r := reshape mode w2.buffer w2.selections
  { w2 with buffer := r.1, selections := r.2 }

/-- `IncrementalInserter::move_cursor` (`src/window.cc` lines 454-462):
re-resolve each selection's display position, add the offset, and collapse
to a caret there.  No scroll adjustment is performed. -/
def move_cursor (w : Window) (offset : Coord) : Window :=
  { w with selections := w.selections.map (fun sel =>
      let pos := Window.line_and_column_at w sel.last
      let it := Window.iterator_at w (pos + offset)
      ⟨it, it, []⟩) }

/-- The `IncrementalInserter` destructor (`src/window.cc` lines 425-432):
move every cursor one display column left, unregister the session, close the
undo group. -/
def dtor (w : Window) : Window :=
  let w1 := move_cursor w ⟨0, -1⟩
  { w1 with current_inserter := false, buffer := Buffer.end_undo_group w1.buffer }

/-- `IncrementalInserter::insert` (`src/window.cc` lines 434-437). -/
def insert (w : Window) (s : Str) : Window :=
  Window.insert_noundo w s

end IncrementalInserter

/-- An identity display filter, used as a concrete filter body. -/
def idFilter : FilterFn := fun db => db

/-- A concrete buffer holding the text `ab`. -/
def bufAB : Buffer := ⟨['a', 'b'], [], [], none, []⟩

/-- A concrete window over `bufAB` with one caret selection and one
installed filter. -/
def w1 : Window :=
  { buffer := bufAB, position := ⟨0, 0⟩, dimensions := ⟨3, 80⟩,
    selections := [⟨0, 0, []⟩], display_buffer := [],
    filters := [("expand_tabs", idFilter)], current_inserter := false }

/-- The spec's scenario S6: twelve lines `a\n`, the display buffer covering
the first four lines, and the primary cursor at the start of buffer line 10
(offset 20). -/
def w5 : Window :=
  { buffer := ⟨(List.replicate 12 ['a', '\n']).flatten, [], [], none, []⟩,
    position := ⟨0, 0⟩, dimensions := ⟨3, 80⟩,
    selections := [⟨20, 20, []⟩], display_buffer := [⟨⟨0, 0⟩, 0, 8⟩],
    filters := [], current_inserter := false }

/-- A window scrolled down to line 5 whose primary cursor sits above the
viewport, so its display line is negative. -/
def w5n : Window :=
  { buffer := ⟨(List.replicate 12 ['a', '\n']).flatten, [], [], none, []⟩,
    position := ⟨5, 0⟩, dimensions := ⟨3, 80⟩,
    selections := [⟨0, 0, []⟩], display_buffer := [⟨⟨0, 0⟩, 10, 16⟩],
    filters := [], current_inserter := false }

/-- A window with a three-atom display buffer over the text `ab\ncd\nef`,
one atom per line. -/
def w6 : Window :=
  { buffer := ⟨['a', 'b', '\n', 'c', 'd', '\n', 'e', 'f'], [], [], none, []⟩,
    position := ⟨0, 0⟩, dimensions := ⟨3, 80⟩,
    selections := [⟨0, 0, []⟩],
    display_buffer := [⟨⟨0, 0⟩, 0, 3⟩, ⟨⟨1, 0⟩, 3, 6⟩, ⟨⟨2, 0⟩, 6, 8⟩],
    filters := [], current_inserter := false }

/-- A window over the text `abc\ndef` with one caret selection inside the
first line. -/
def w2w : Window :=
  { buffer := ⟨['a', 'b', 'c', '\n', 'd', 'e', 'f'], [], [], none, []⟩,
    position := ⟨0, 0⟩, dimensions := ⟨3, 80⟩,
    selections := [⟨1, 1, []⟩], display_buffer := [], filters := [],
    current_inserter := false }

/-- Spec-side reading of the claim's OpenLineBelow sentence: advance from
`sel.end() - 1` to end-of-buffer or the next newline, insert a newline at
that stop position, and advance the caret past it. -/
def openLineBelowSpec (c : Str) (sel : Selection) : Str × Selection :=
  let p := scanForward c (Selection.end_ sel - 1)
  (insertAt c p ['\n'], ⟨p + 1, p + 1, sel.captures⟩)

/-- Spec-side reading of the claim's OpenLineAbove sentence: retreat from
`sel.begin()` to beginning-of-buffer or the previous newline, insert a
newline there, and advance the caret past it. -/
def openLineAboveSpec (c : Str) (sel : Selection) : Str × Selection :=
  let p := scanBackward c (Selection.begin sel)
  (insertAt c p ['\n'], ⟨p + 1, p + 1, sel.captures⟩)

/-! ### Helper lemmas -/

theorem Coord.lt_def (a b : Coord) :
    (a < b) = (a.line < b.line ∨ (a.line = b.line ∧ a.column < b.column)) := rfl

theorem Coord.le_def (a b : Coord) :
    (a ≤ b) = (a.line < b.line ∨ (a.line = b.line ∧ a.column ≤ b.column)) := rfl

theorem Coord.add_def (a b : Coord) :
    a + b = ⟨a.line + b.line, a.column + b.column⟩ := rfl

theorem addFilterAux_spec (id : String) (l : List (String × FilterFn)) :
    addFilterAux id l =
      if id ∈ l.map Prod.fst then some (WindowError.filter_id_not_unique id) else none := by
  induction l with
  | nil => simp [addFilterAux]
  | cons p rest ih =>
      by_cases h1 : p.1 = id
      · simp [addFilterAux, h1]
      · have h2 : ¬ id = p.1 := fun h => h1 h.symm
        simp only [addFilterAux, h1, if_false, ite_false, ih]
        by_cases h3 : id ∈ List.map Prod.fst rest <;>
          simp [h3, h2, List.mem_cons]

theorem removeFilterAux_not_mem (id : String) (l : List (String × FilterFn))
    (h : id ∉ l.map Prod.fst) : removeFilterAux id l = l := by
  induction l with
  | nil => rfl
  | cons p rest ih =>
      simp only [List.map_cons, List.mem_cons, not_or] at h
      have h1 : ¬ p.1 = id := fun e => h.1 e.symm
      simp [removeFilterAux, h1, ih h.2]

@[simp] theorem scroll_selections (w : Window) :
    (Window.scroll_to_keep_cursor_visible_ifn w).selections = w.selections := rfl

@[simp] theorem scroll_buffer (w : Window) :
    (Window.scroll_to_keep_cursor_visible_ifn w).buffer = w.buffer := rfl

theorem eraseAll_frame (sels : List Selection) : ∀ b : Buffer,
    (eraseAll b sels).pending = b.pending ∧
    (eraseAll b sels).undoStack = b.undoStack ∧
    ∃ t, (eraseAll b sels).trace = b.trace ++ t ∧ t.all isMut = true := by
  induction sels with
  | nil => intro b; exact ⟨rfl, rfl, [], by simp [eraseAll], rfl⟩
  | cons sel rest ih =>
      intro b
      obtain ⟨h1, h2, t, h3, h4⟩ := ih (Buffer.erase b (Selection.begin sel) (Selection.end_ sel))
      refine ⟨?_, ?_, UndoEvent.del (Selection.begin sel) (Selection.end_ sel) :: t, ?_, ?_⟩
      · simpa [Buffer.erase] using h1
      · simpa [Buffer.erase] using h2
      · simp only [eraseAll]
        rw [h3]
        simp [Buffer.erase]
      · simp [h4, isMut]

theorem insertAll_frame (s : Str) (sels : List Selection) : ∀ b : Buffer,
    (insertAll s b sels).pending = b.pending ∧
    (insertAll s b sels).undoStack = b.undoStack ∧
    ∃ t, (insertAll s b sels).trace = b.trace ++ t ∧ t.all isMut = true := by
  induction sels with
  | nil => intro b; exact ⟨rfl, rfl, [], by simp [insertAll], rfl⟩
  | cons sel rest ih =>
      intro b
      obtain ⟨h1, h2, t, h3, h4⟩ := ih (Buffer.insert b (Selection.begin sel) s)
      refine ⟨?_, ?_, UndoEvent.ins (Selection.begin sel) s :: t, ?_, ?_⟩
      · simpa [Buffer.insert] using h1
      · simpa [Buffer.insert] using h2
      · simp only [insertAll]
        rw [h3]
        simp [Buffer.insert]
      · simp [h4, isMut]

theorem end_undo_group_of_pending (b : Buffer) (c : Str) (h : b.pending = some c) :
    Buffer.end_undo_group b =
      { b with pending := none, undoStack := c :: b.undoStack,
               trace := b.trace ++ [UndoEvent.endGroup] } := by
  unfold Buffer.end_undo_group
  rw [h]

theorem replace_buffer (w : Window) (s : Str) :
    (Window.replace w s).buffer =
      Buffer.end_undo_group
        (insertAll s (eraseAll (Buffer.begin_undo_group w.buffer) w.selections) w.selections) :=
  rfl

theorem reshape_forall (mode : Mode) (sels : List Selection) : ∀ b : Buffer,
    List.Forall₂ (fun old new => new.captures = old.captures ∧ new.first = new.last)
      sels (reshape mode b sels).2 := by
  induction sels with
  | nil => intro b; exact List.Forall₂.nil
  | cons sel rest ih =>
      intro b
      simp only [reshape]
      exact List.Forall₂.cons (by cases mode <;> simp [inserter_step]) (ih _)

theorem coord_le_asymm {a b : Coord} (h : a ≤ b) : ¬ b < a := by
  rw [Coord.le_def] at h
  rw [Coord.lt_def]
  omega

theorem findDelegate_none (wp : Coord) (l : List DisplayAtom) : ∀ prev : DisplayAtom,
    (∀ x ∈ l, ¬ wp < x.coord) → findDelegate wp prev l = none := by
  induction l with
  | nil => intro prev _; rfl
  | cons a rest ih =>
      intro prev h
      have ha := h a (List.mem_cons_self a rest)
      simp only [findDelegate, ha, if_false, ite_false]
      exact ih a (fun x hx => h x (List.mem_cons_of_mem a hx))

theorem findDelegate_found (wp : Coord) (r1 : List DisplayAtom) :
    ∀ (prev a : DisplayAtom) (r2 : List DisplayAtom),
    (∀ x ∈ r1, ¬ wp < x.coord) → wp < a.coord →
    findDelegate wp prev (r1 ++ a :: r2) = some ((prev :: r1).getLastD prev) := by
  induction r1 with
  | nil =>
      intro prev a r2 _ ha
      simp [findDelegate, ha]
  | cons x xs ih =>
      intro prev a r2 h ha
      have hx := h x (List.mem_cons_self x xs)
      simp only [List.cons_append, findDelegate, hx, if_false, ite_false, List.append_eq]
      rw [ih x a r2 (fun y hy => h y (List.mem_cons_of_mem x hy)) ha]
      simp only [List.getLastD_cons]

theorem distToNl_get (l : Str) (h : distToNl l < l.length) :
    l.get? (distToNl l) = some '\n' := by
  induction l with
  | nil => simp [distToNl] at h
  | cons ch rest ih =>
      by_cases hc : ch = '\n'
      · simp [distToNl, hc]
      · simp only [distToNl, hc, if_false, ite_false] at h ⊢
        have h' : distToNl rest < rest.length := by
          simp only [List.length_cons] at h
          omega
        rw [List.get?_cons_succ]
        exact ih h'

theorem scanForward_get (c : Str) (p : Nat) (h : scanForward c p < c.length) :
    c.get? (scanForward c p) = some '\n' := by
  unfold scanForward at h ⊢
  have hd : distToNl (c.drop p) < (c.drop p).length := by
    rw [List.length_drop]
    omega
  have hg := distToNl_get (c.drop p) hd
  rw [List.get?_drop] at hg
  exact hg

theorem insertAt_newline_shift (c : Str) (p : Nat) (h : c.get? p = some '\n') :
    insertAt c p ['\n'] = insertAt c (p + 1) ['\n'] := by
  obtain ⟨hp, hget⟩ := List.get?_eq_some.1 h
  have hdrop : c.drop p = '\n' :: c.drop (p + 1) := by
    rw [List.drop_eq_get_cons hp, hget]
  have htake : c.take (p + 1) = c.take p ++ ['\n'] := by
    rw [← hget]
    have hcc := (List.take_concat_get c p hp).symm
    rw [List.concat_eq_append] at hcc
    simpa using hcc
  unfold insertAt
  rw [htake, hdrop]
  simp

theorem get_insertAt_self (c : Str) (p : Nat) (hp : p ≤ c.length) :
    (insertAt c p ['\n']).get? p = some '\n' := by
  unfold insertAt
  rw [List.append_assoc, List.get?_append_right (by rw [List.length_take]; omega)]
  have hlen : (c.take p).length = p := by
    rw [List.length_take]
    omega
  rw [hlen]
  simp

theorem get_insertAt_pred (c : Str) (p : Nat) (hp : p < c.length) (h : c.get? p = some '\n') :
    (insertAt c (p + 1) ['\n']).get? p = some '\n' := by
  unfold insertAt
  rw [List.append_assoc, List.get?_append (by rw [List.length_take]; omega)]
  rw [List.get?_take (by omega)]
  exact h

/-! ### Claim C1 -/

/-- C1 (counterexample): the direction-preservation claim fails for an
arbitrary `other`: the selection `(5,5)` is forward, but merging with
`other = (6,0)` yields `first = 5 > last = 0`. -/
theorem C1_cex :
    (⟨5, 5, []⟩ : Selection).first ≤ (⟨5, 5, []⟩ : Selection).last ∧
    ¬ (Selection.merge_with ⟨5, 5, []⟩ ⟨6, 0, []⟩).first ≤
        (Selection.merge_with ⟨5, 5, []⟩ ⟨6, 0, []⟩).last := by
  decide

/-- C1 (amended): `merge_with` preserves the direction whenever the merged-in
selection has the same direction as the original: a forward selection merged
with a forward one stays forward, a reverse selection merged with a reverse
one stays reverse, and in all cases the new `last` equals `other.last`. -/
theorem C1_correct (s o : Selection) :
    (s.first ≤ s.last → o.first ≤ o.last →
      (Selection.merge_with s o).first ≤ (Selection.merge_with s o).last) ∧
    (s.last < s.first → o.last ≤ o.first →
      (Selection.merge_with s o).last ≤ (Selection.merge_with s o).first) ∧
    (Selection.merge_with s o).last = o.last := by
  refine ⟨?_, ?_, rfl⟩ <;> intro h1 h2 <;>
    simp only [Selection.merge_with] <;>
    split_ifs <;> simp only [Nat.min_def, Nat.max_def] <;> split_ifs <;> omega

/-- C1 (witness): the amended direction preservation evaluated on the
spec's own scenario S5 and a reverse counterpart. -/
theorem C1_wit :
    (Selection.merge_with ⟨2, 5, []⟩ ⟨3, 10, []⟩).first ≤
      (Selection.merge_with ⟨2, 5, []⟩ ⟨3, 10, []⟩).last ∧
    (Selection.merge_with ⟨9, 7, []⟩ ⟨8, 6, []⟩).last ≤
      (Selection.merge_with ⟨9, 7, []⟩ ⟨8, 6, []⟩).first ∧
    (Selection.merge_with ⟨2, 5, []⟩ ⟨3, 10, []⟩).last = 10 :=
  ⟨(C1_correct ⟨2, 5, []⟩ ⟨3, 10, []⟩).1 (by decide) (by decide),
   (C1_correct ⟨9, 7, []⟩ ⟨8, 6, []⟩).2.1 (by decide) (by decide),
   (C1_correct ⟨2, 5, []⟩ ⟨3, 10, []⟩).2.2⟩

/-! ### Claim C8 -/

/-- C8 (confirmed): `add_filter` raises `filter_id_not_unique` carrying the
offending id exactly when a filter with that id is already installed (the
window, and in particular its filter list, is unchanged as no new window is
produced); otherwise it appends the pair at the end of the filter list. -/
theorem C8_ok (w : Window) (f : String × FilterFn) :
    (f.1 ∈ w.filters.map Prod.fst →
      Window.add_filter w f = Except.error (WindowError.filter_id_not_unique f.1)) ∧
    (f.1 ∉ w.filters.map Prod.fst →
      Window.add_filter w f = Except.ok { w with filters := w.filters ++ [f] }) := by
  constructor <;> intro h <;> simp [Window.add_filter, addFilterAux_spec, h]

/-- C8 (witness): on the concrete window `w1`, re-adding `expand_tabs` fails
with the duplicate-id error and adding a fresh id appends it. -/
theorem C8_wit :
    Window.add_filter w1 ("expand_tabs", idFilter) =
      Except.error (WindowError.filter_id_not_unique "expand_tabs") ∧
    Window.add_filter w1 ("hlcpp", idFilter) =
      Except.ok { w1 with filters := w1.filters ++ [("hlcpp", idFilter)] } :=
  ⟨(C8_ok w1 ("expand_tabs", idFilter)).1 (by simp [w1]),
   (C8_ok w1 ("hlcpp", idFilter)).2 (by simp [w1])⟩

/-! ### Claim C9 -/

/-- C9 (confirmed): silent no-ops: `capture i` returns the i-th capture when
in range and the empty string otherwise, and `remove_filter` with an absent
id leaves the window's filter list unchanged. -/
theorem C9_ok :
    (∀ (s : Selection) (i : Nat) (h : i < s.captures.length),
      Selection.capture s i = s.captures.get ⟨i, h⟩) ∧
    (∀ (s : Selection) (i : Nat), s.captures.length ≤ i → Selection.capture s i = []) ∧
    (∀ (w : Window) (id : String), id ∉ w.filters.map Prod.fst →
      Window.remove_filter w id = w) := by
  refine ⟨?_, ?_, ?_⟩
  · intro s i h; simp [Selection.capture, h]
  · intro s i h; simp [Selection.capture, Nat.not_lt.2 h]
  · intro w id h
    simp [Window.remove_filter, removeFilterAux_not_mem id w.filters h]

/-- C9 (witness): the silent no-ops evaluated on concrete inputs. -/
theorem C9_wit :
    Selection.capture ⟨0, 0, [['a']]⟩ 0 = ['a'] ∧
    Selection.capture ⟨0, 0, [['a']]⟩ 5 = [] ∧
    Window.remove_filter w1 "nope" = w1 :=
  ⟨by have h := C9_ok.1 ⟨0, 0, [['a']]⟩ 0 (by decide); simpa using h,
   C9_ok.2.1 ⟨0, 0, [['a']]⟩ 5 (by decide),
   C9_ok.2.2 w1 "nope" (by simp [w1])⟩

/-! ### Claim C2 -/

/-- C2 (counterexample): on the buffer `ab` (no trailing newline) with a
caret at offset 0, `OpenLineBelow` scans to end-of-buffer; the constructor
then advances past the end (saturating) before inserting, so the final caret
sits at offset 2 — on the inserted newline — instead of at offset 3, the
start of the newly created empty line demanded by the claim's
insert-then-advance reading. -/
theorem C2_cex :
    (IncrementalInserter.ctor w1 Mode.OpenLineBelow).selections ≠
      [(openLineBelowSpec w1.buffer.content ⟨0, 0, []⟩).2] ∧
    (IncrementalInserter.ctor w1 Mode.OpenLineBelow).selections = [⟨2, 2, []⟩] ∧
    (openLineBelowSpec w1.buffer.content ⟨0, 0, []⟩).2 = ⟨3, 3, []⟩ ∧
    (IncrementalInserter.ctor w1 Mode.OpenLineBelow).buffer.content = ['a', 'b', '\n'] := by
  decide

/-- C2 (amended): for a single-selection window, whenever the forward scan
stops at a newline (rather than at end-of-buffer), constructing an
`IncrementalInserter` in `OpenLineBelow` mode produces exactly the buffer
and caret of the claim's description — insert a newline at the stop
position, advance past it — and the caret lands at the start of the newly
inserted empty line (the character before it and the character at it are
both newlines); `OpenLineAbove` matches the claim's description
unconditionally. -/
theorem C2_correct (w : Window) (sel : Selection) (hsel : w.selections = [sel]) :
    (scanForward w.buffer.content (Selection.end_ sel - 1) < w.buffer.content.length →
      (IncrementalInserter.ctor w Mode.OpenLineBelow).buffer.content =
        (openLineBelowSpec w.buffer.content sel).1 ∧
      (IncrementalInserter.ctor w Mode.OpenLineBelow).selections =
        [(openLineBelowSpec w.buffer.content sel).2] ∧
      (IncrementalInserter.ctor w Mode.OpenLineBelow).buffer.content.get?
        (scanForward w.buffer.content (Selection.end_ sel - 1)) = some '\n' ∧
      (IncrementalInserter.ctor w Mode.OpenLineBelow).buffer.content.get?
        (scanForward w.buffer.content (Selection.end_ sel - 1) + 1) = some '\n') ∧
    ((IncrementalInserter.ctor w Mode.OpenLineAbove).buffer.content =
        (openLineAboveSpec w.buffer.content sel).1 ∧
      (IncrementalInserter.ctor w Mode.OpenLineAbove).selections =
        [(openLineAboveSpec w.buffer.content sel).2]) := by
  constructor
  · intro hfound
    have hnl := scanForward_get w.buffer.content (Selection.end_ sel - 1) hfound
    have hmin : min (scanForward w.buffer.content (Selection.end_ sel - 1) + 1)
        w.buffer.content.length = scanForward w.buffer.content (Selection.end_ sel - 1) + 1 := by
      omega
    have hb : (IncrementalInserter.ctor w Mode.OpenLineBelow).buffer.content =
        insertAt w.buffer.content
          (scanForward w.buffer.content (Selection.end_ sel - 1) + 1) ['\n'] := by
      simp [IncrementalInserter.ctor, hsel, reshape, inserter_step, Buffer.insert,
            Buffer.begin_undo_group, hmin]
    have hs : (IncrementalInserter.ctor w Mode.OpenLineBelow).selections =
        [⟨scanForward w.buffer.content (Selection.end_ sel - 1) + 1,
          scanForward w.buffer.content (Selection.end_ sel - 1) + 1, sel.captures⟩] := by
      simp [IncrementalInserter.ctor, hsel, reshape, inserter_step, Buffer.insert,
            Buffer.begin_undo_group, hmin]
    refine ⟨?_, ?_, ?_, ?_⟩
    · rw [hb]
      simp only [openLineBelowSpec]
      exact (insertAt_newline_shift _ _ hnl).symm
    · rw [hs]
      simp [openLineBelowSpec]
    · rw [hb]
      exact get_insertAt_pred _ _ hfound hnl
    · rw [hb]
      exact get_insertAt_self _ _ (by omega)
  · constructor
    · simp [IncrementalInserter.ctor, hsel, reshape, inserter_step, Buffer.insert,
            Buffer.begin_undo_group, openLineAboveSpec]
    · simp [IncrementalInserter.ctor, hsel, reshape, inserter_step, Buffer.insert,
            Buffer.begin_undo_group, openLineAboveSpec]

/-- C2 (witness): on the buffer `abc\ndef` with a caret at offset 1 (the
scan stops at the newline at offset 3), both open-line modes match the
claim's description. -/
theorem C2_wit :
    (IncrementalInserter.ctor w2w Mode.OpenLineBelow).buffer.content =
      (openLineBelowSpec w2w.buffer.content ⟨1, 1, []⟩).1 ∧
    (IncrementalInserter.ctor w2w Mode.OpenLineBelow).selections =
      [(openLineBelowSpec w2w.buffer.content ⟨1, 1, []⟩).2] ∧
    (IncrementalInserter.ctor w2w Mode.OpenLineAbove).selections =
      [(openLineAboveSpec w2w.buffer.content ⟨1, 1, []⟩).2] :=
  ⟨((C2_correct w2w ⟨1, 1, []⟩ rfl).1 (by decide)).1,
   ((C2_correct w2w ⟨1, 1, []⟩ rfl).1 (by decide)).2.1,
   ((C2_correct w2w ⟨1, 1, []⟩ rfl).2).2⟩

/-! ### Claim C3 -/

/-- C3 (counterexample): `multi_select` with a selector that returns the
empty list leaves the window with zero selections, falsifying the claim that
the selection list is non-empty after any public operation with an arbitrary
selector. -/
theorem C3_cex : (Window.multi_select w1 (fun _ => [])).selections = [] := rfl

/-- C3 (amended): every public operation preserves non-emptiness of the
selection list, except that `multi_select` requires the concatenation of the
selector's outputs to be non-empty (an empty concatenation is a caller
error and leaves the window with zero selections). -/
theorem C3_correct :
    (∀ (w : Window) (selector : Selection → List Selection),
      (w.selections.map selector).flatten ≠ [] →
      (Window.multi_select w selector).selections ≠ []) ∧
    (∀ w : Window, (Window.clear_selections w).selections ≠ []) ∧
    (∀ (w : Window) (selector : Nat → Selection) (app : Bool),
      w.selections ≠ [] → (Window.select w selector app).selections ≠ []) ∧
    (∀ (w : Window) (it : Nat), (Window.move_cursor_to w it).selections ≠ []) ∧
    (∀ (w : Window) (offset : Coord) (app : Bool),
      w.selections ≠ [] → (Window.move_cursor w offset app).selections ≠ []) ∧
    (∀ (w : Window) (s : Str), w.selections ≠ [] →
      (Window.insert w s).selections ≠ [] ∧ (Window.append w s).selections ≠ [] ∧
      (Window.replace w s).selections ≠ []) ∧
    (∀ w : Window, w.selections ≠ [] →
      (Window.erase w).selections ≠ [] ∧ (Window.undo w).2.selections ≠ [] ∧
      (Window.redo w).2.selections ≠ [] ∧
      (Window.update_display_buffer w).selections ≠ [] ∧
      (Window.scroll_to_keep_cursor_visible_ifn w).selections ≠ []) ∧
    (∀ (w : Window) (d : Coord), w.selections ≠ [] →
      (Window.set_dimensions w d).selections ≠ []) ∧
    (∀ (w : Window) (id : String), w.selections ≠ [] →
      (Window.remove_filter w id).selections ≠ []) ∧
    (∀ (w w' : Window) (f : String × FilterFn), w.selections ≠ [] →
      Window.add_filter w f = Except.ok w' → w'.selections ≠ []) := by
  refine ⟨?_, ?_, ?_, ?_, ?_, ?_, ?_, ?_, ?_, ?_⟩
  · intro w selector h
    simpa [Window.multi_select] using h
  · intro w
    simp [Window.clear_selections]
  · intro w selector app h
    by_cases happ : app <;> simp [Window.select, happ, h]
  · intro w it
    simp [Window.move_cursor_to]
  · intro w offset app h
    by_cases happ : app <;> simp [Window.move_cursor, happ, Window.move_cursor_to, h]
  · intro w s h
    exact ⟨h, h, h⟩
  · intro w h
    refine ⟨h, h, h, ?_, h⟩
    simp only [Window.update_display_buffer]
    split <;> exact h
  · intro w d h
    exact h
  · intro w id h
    exact h
  · intro w w' f h hok
    unfold Window.add_filter at hok
    cases hc : addFilterAux f.1 w.filters <;> rw [hc] at hok
    · cases hok
      exact h
    · cases hok

/-- C3 (witness): the amended preservation evaluated on the concrete window
`w1` for a selection-splitting `multi_select`, an appending `select`, and an
`insert`. -/
theorem C3_wit :
    (Window.multi_select w1 (fun s => [s, s])).selections ≠ [] ∧
    (Window.select w1 (fun p => ⟨p, p, []⟩) true).selections ≠ [] ∧
    (Window.insert w1 ['x']).selections ≠ [] :=
  ⟨C3_correct.1 w1 (fun s => [s, s]) (by decide),
   C3_correct.2.2.1 w1 (fun p => ⟨p, p, []⟩) true (by decide),
   (C3_correct.2.2.2.2.2.1 w1 ['x'] (by decide)).1⟩

/-! ### Claim C4 -/

/-- C4 (confirmed): `replace(s)` brackets the erasure of every selection and
the insertion of `s` in exactly one `begin_undo_group`/`end_undo_group`
pair — the trace it appends is one `beginGroup`, then only content
mutations, then one `endGroup` — and a single subsequent `undo` succeeds and
restores the original buffer contents.  (In this total model every exit path
is the normal one, so the group is closed on every exit path.) -/
theorem C4_ok (w : Window) (s : Str) :
    (∃ t, (Window.replace w s).buffer.trace =
        w.buffer.trace ++ UndoEvent.beginGroup :: (t ++ [UndoEvent.endGroup]) ∧
        t.all isMut = true) ∧
    (Buffer.undo (Window.replace w s).buffer).1 = true ∧
    (Buffer.undo (Window.replace w s).buffer).2.content = w.buffer.content := by
  obtain ⟨e1, e2, te, he, hem⟩ := eraseAll_frame w.selections (Buffer.begin_undo_group w.buffer)
  obtain ⟨i1, i2, ti, hi, him⟩ :=
    insertAll_frame s w.selections (eraseAll (Buffer.begin_undo_group w.buffer) w.selections)
  have hp : (insertAll s (eraseAll (Buffer.begin_undo_group w.buffer) w.selections)
      w.selections).pending = some w.buffer.content := by
    rw [i1, e1]; rfl
  have hend := end_undo_group_of_pending _ _ hp
  have htr : (insertAll s (eraseAll (Buffer.begin_undo_group w.buffer) w.selections)
      w.selections).trace = (w.buffer.trace ++ [UndoEvent.beginGroup]) ++ (te ++ ti) := by
    rw [hi, he]
    simp [Buffer.begin_undo_group, List.append_assoc]
  refine ⟨⟨te ++ ti, ?_, ?_⟩, ?_, ?_⟩
  · rw [replace_buffer, hend]
    simp only [htr]
    simp [List.append_assoc]
  · simp [List.all_append, hem, him]
  · rw [replace_buffer, hend]
    rfl
  · rw [replace_buffer, hend]
    rfl

/-! ### Claim C6 -/

/-- C6 (confirmed): `iterator_at` returns the buffer's begin on an empty
display buffer; for non-negative window positions (under the display-buffer
invariant that the first atom sits at `(0,0)`) it delegates to the atom
preceding the first atom whose coordinate strictly exceeds the position;
and for positions at or past the last atom's start, or negative positions,
it returns the raw `buffer.iterator_at(position + window_pos)`. -/
theorem C6_ok :
    (∀ (w : Window) (wp : Coord), w.display_buffer = [] → Window.iterator_at w wp = 0) ∧
    (∀ (w : Window) (wp : Coord) (a0 : DisplayAtom) (r1 : List DisplayAtom)
        (a : DisplayAtom) (r2 : List DisplayAtom),
      w.display_buffer = a0 :: (r1 ++ a :: r2) → a0.coord = ⟨0, 0⟩ →
      (⟨0, 0⟩ : Coord) ≤ wp → (∀ x ∈ r1, ¬ wp < x.coord) → wp < a.coord →
      Window.iterator_at w wp =
        DisplayAtom.iterator_at w.buffer.content ((a0 :: r1).getLastD a0) wp) ∧
    (∀ (w : Window) (wp : Coord) (a0 : DisplayAtom) (rest : List DisplayAtom),
      w.display_buffer = a0 :: rest → a0.coord = ⟨0, 0⟩ → (⟨0, 0⟩ : Coord) ≤ wp →
      (∀ x ∈ rest, ¬ wp < x.coord) →
      Window.iterator_at w wp = bufferIteratorAt w.buffer.content (w.position + wp)) ∧
    (∀ (w : Window) (wp : Coord), w.display_buffer ≠ [] → ¬ (⟨0, 0⟩ : Coord) ≤ wp →
      Window.iterator_at w wp = bufferIteratorAt w.buffer.content (w.position + wp)) := by
  refine ⟨?_, ?_, ?_, ?_⟩
  · intro w wp h
    simp [Window.iterator_at, h]
  · intro w wp a0 r1 a r2 hdb h0 hwp hr1 ha
    have hnlt : ¬ wp < a0.coord := by
      rw [h0]
      exact coord_le_asymm hwp
    simp only [Window.iterator_at, hdb, hwp, if_true, ite_true, hnlt, if_false, ite_false]
    rw [findDelegate_found wp r1 a0 a r2 hr1 ha]
  · intro w wp a0 rest hdb h0 hwp hrest
    have hnlt : ¬ wp < a0.coord := by
      rw [h0]
      exact coord_le_asymm hwp
    simp only [Window.iterator_at, hdb, hwp, if_true, ite_true, hnlt, if_false, ite_false]
    rw [findDelegate_none wp rest a0 hrest]
  · intro w wp hne hneg
    cases hdb : w.display_buffer with
    | nil => exact absurd hdb hne
    | cons a0 rest => simp [Window.iterator_at, hdb, hneg]

/-- C6 (witness): on the concrete window `w6`, position `(1,1)` delegates to
the middle atom (the one preceding the first atom whose coordinate exceeds
`(1,1)`); position `(2,5)` is at or past the last atom's start and position
`(0,-1)` is negative, both falling back to raw buffer arithmetic; and the
empty-display-buffer window `w1` maps any position to the buffer begin. -/
theorem C6_wit :
    Window.iterator_at w1 ⟨1, 1⟩ = 0 ∧
    Window.iterator_at w6 ⟨1, 1⟩ =
      DisplayAtom.iterator_at w6.buffer.content
        (((⟨⟨0, 0⟩, 0, 3⟩ : DisplayAtom) :: [⟨⟨1, 0⟩, 3, 6⟩]).getLastD ⟨⟨0, 0⟩, 0, 3⟩) ⟨1, 1⟩ ∧
    Window.iterator_at w6 ⟨2, 5⟩ = bufferIteratorAt w6.buffer.content (w6.position + ⟨2, 5⟩) ∧
    Window.iterator_at w6 ⟨0, -1⟩ = bufferIteratorAt w6.buffer.content (w6.position + ⟨0, -1⟩) :=
  ⟨C6_ok.1 w1 ⟨1, 1⟩ rfl,
   C6_ok.2.1 w6 ⟨1, 1⟩ ⟨⟨0, 0⟩, 0, 3⟩ [⟨⟨1, 0⟩, 3, 6⟩] ⟨⟨2, 0⟩, 6, 8⟩ [] rfl rfl
     (by decide) (by decide) (by decide),
   C6_ok.2.2.1 w6 ⟨2, 5⟩ ⟨⟨0, 0⟩, 0, 3⟩ [⟨⟨1, 0⟩, 3, 6⟩, ⟨⟨2, 0⟩, 6, 8⟩] rfl rfl
     (by decide) (by decide),
   C6_ok.2.2.2 w6 ⟨0, -1⟩ (by decide) (by decide)⟩

/-! ### Claim C7 -/

/-- C7 (confirmed): `merge_with` never modifies captures, and the
`IncrementalInserter` constructor reshapes every selection, in every mode,
to a caret while keeping that selection's captures. -/
theorem C7_ok :
    (∀ s o : Selection, (Selection.merge_with s o).captures = s.captures) ∧
    (∀ (mode : Mode) (w : Window),
      List.Forall₂ (fun old new => new.captures = old.captures ∧ new.first = new.last)
        w.selections (IncrementalInserter.ctor w mode).selections) := by
  constructor
  · intro s o; rfl
  · intro mode w
    cases mode <;> exact reshape_forall _ w.selections _

/-! ### Claim C5 -/

/-- C5 (confirmed): `scroll_to_keep_cursor_visible_ifn` maps the primary
cursor through the current display mapping and adjusts the scroll position
per the claim's case analysis on each axis; in the spec's scenario S6
(dimensions `(3,80)`, position `(0,0)`, cursor on buffer line 10) the
resulting position line is 8. -/
theorem C5_ok :
    (∀ w : Window,
      (Window.line_and_column_at w (Window.cursor_iterator w)).line < 0 →
      (Window.scroll_to_keep_cursor_visible_ifn w).position.line =
        max (w.position.line + (Window.line_and_column_at w (Window.cursor_iterator w)).line) 0) ∧
    (∀ w : Window,
      ¬ (Window.line_and_column_at w (Window.cursor_iterator w)).line < 0 →
      w.dimensions.line ≤ (Window.line_and_column_at w (Window.cursor_iterator w)).line →
      (Window.scroll_to_keep_cursor_visible_ifn w).position.line =
        w.position.line +
          ((Window.line_and_column_at w (Window.cursor_iterator w)).line -
            (w.dimensions.line - 1))) ∧
    (∀ w : Window,
      (Window.line_and_column_at w (Window.cursor_iterator w)).column < 0 →
      (Window.scroll_to_keep_cursor_visible_ifn w).position.column =
        max (w.position.column + (Window.line_and_column_at w (Window.cursor_iterator w)).column) 0) ∧
    (∀ w : Window,
      ¬ (Window.line_and_column_at w (Window.cursor_iterator w)).column < 0 →
      w.dimensions.column ≤ (Window.line_and_column_at w (Window.cursor_iterator w)).column →
      (Window.scroll_to_keep_cursor_visible_ifn w).position.column =
        w.position.column +
          ((Window.line_and_column_at w (Window.cursor_iterator w)).column -
            (w.dimensions.column - 1))) ∧
    (Window.scroll_to_keep_cursor_visible_ifn w5).position = ⟨8, 0⟩ := by
  refine ⟨?_, ?_, ?_, ?_, by decide⟩ <;> intro w h1 <;>
    first
      | (intro h2; simp [Window.scroll_to_keep_cursor_visible_ifn, h1, h2])
      | simp [Window.scroll_to_keep_cursor_visible_ifn, h1]

/-- C5 (witness): the scroll-up rule on the concrete window `w5n` (cursor on
display line -5) and the scroll-down rule on the scenario window `w5`. -/
theorem C5_wit :
    (Window.scroll_to_keep_cursor_visible_ifn w5n).position.line =
      max (w5n.position.line +
        (Window.line_and_column_at w5n (Window.cursor_iterator w5n)).line) 0 ∧
    (Window.scroll_to_keep_cursor_visible_ifn w5).position.line =
      w5.position.line +
        ((Window.line_and_column_at w5 (Window.cursor_iterator w5)).line -
          (w5.dimensions.line - 1)) :=
  ⟨C5_ok.1 w5n (by decide), C5_ok.2.1 w5 (by decide) (by decide)⟩

/-! ### Claim C10 -/

/-- C10 (confirmed): destroying an `IncrementalInserter` collapses every
selection of the window to a zero-width caret — anchor equal to cursor —
placed at the buffer position resolved from the display position one column
left of that selection's previous cursor, and the window's scroll position
is not adjusted by this final motion. -/
theorem C10_ok (w : Window) :
    List.Forall₂ (fun old new =>
        new.first = new.last ∧
        new.last = Window.iterator_at w
          (Window.line_and_column_at w old.last + (⟨0, -1⟩ : Coord)) ∧
        new.captures = [])
      w.selections (IncrementalInserter.dtor w).selections ∧
    (IncrementalInserter.dtor w).position = w.position := by
  constructor
  · have hmap : (IncrementalInserter.dtor w).selections = w.selections.map (fun sel =>
        (⟨Window.iterator_at w (Window.line_and_column_at w sel.last + ⟨0, -1⟩),
          Window.iterator_at w (Window.line_and_column_at w sel.last + ⟨0, -1⟩), []⟩ :
          Selection)) := rfl
    rw [hmap, List.forall₂_map_right_iff]
    exact List.forall₂_same.2 (fun x _ => ⟨rfl, rfl, rfl⟩)
  · rfl

end Kakoune
